import Mathlib

/-!
Verification of the gold-price acquisition pipeline (`harga_emas_ubs.py` and
`harga_emas_pegadaian.py`). Calendar dates are modelled as integer day numbers
(the difference of two Python `date`s in days is the difference of their day
numbers); epoch-millisecond timestamps are integers; Asia/Jakarta is a fixed
UTC+7 zone with no daylight saving, so local conversion adds 7 hours.
-/

namespace HargaEmas

/-- `AVAILABLE_INTERVALS = [7, 30, 90, 180, 365, 1095]` from `harga_emas_ubs.py`. -/
def AVAILABLE_INTERVALS : List Int := [7, 30, 90, 180, 365, 1095]

/-- `select_interval(start_date, end_date)` from `harga_emas_ubs.py`:
`days_diff = (end_date - start_date).days + 1`; return the first interval
`>= days_diff`, else the last list element. Dates are integer day numbers. -/
def select_interval (start_date end_date : Int) : Int :=
  let days_diff := (end_date - start_date) + 1
  match AVAILABLE_INTERVALS.find? (fun interval => days_diff ≤ interval) with
  | some interval => interval
  | none => AVAILABLE_INTERVALS.getLastD 0

/-- `datetime.fromtimestamp(ms / 1000, ZoneInfo("Asia/Jakarta")).date()`:
Asia/Jakarta is fixed UTC+7 (25200 s), so the local calendar date of an epoch
millisecond stamp is the floor of `(ms + 25200000) / 86400000`, as a day number. -/
def epochMsToJakartaDate (ms : Int) : Int :=
  (ms + 25200000).fdiv 86400000

/-- One datapoint `[timestamp_ms, open, high, low, close]` of the UBS series. -/
structure Entry where
  ts : Int
  openV : Int
  highV : Int
  lowV : Int
  closeV : Int
deriving DecidableEq, Repr

/-- One element of the UBS response `[{"name": ..., "data": [...]}, ...]`. -/
structure Series where
  name : String
  data : List Entry
deriving DecidableEq, Repr

/-- The normalized record `{"price": entry[4], "date": str(entry_date)}`;
the date is kept as a day number (its ISO string form is handled at the
CSV layer). -/
structure PriceRecord where
  price : Int
  date : Int
deriving DecidableEq, Repr

/-- `DataCleaning._parse_entry` from `harga_emas_ubs.py`. -/
def parse_entry (e : Entry) : PriceRecord :=
  { price := e.closeV, date := epochMsToJakartaDate e.ts }

/-- `DataCleaning._run_single` from `harga_emas_ubs.py`, acting on
`self.data[0]["data"]` with the target date already resolved. The `none`
branch for an empty entry list is unreachable under `run`'s guard (Python
would raise `IndexError` on `[-1]`). -/
def DataCleaning.run_single (entries : List Entry) (target : Int) :
    Option PriceRecord :=
  match entries.getLast? with
  | none => none
  | some latest_entry =>
    if epochMsToJakartaDate latest_entry.ts = target then
      some (parse_entry latest_entry)
    else
      none

/-- `DataCleaning._run_bulk` from `harga_emas_ubs.py`: keep, in order, the
entries whose Jakarta date lies in `[start_date, end_date]`; `None` when no
entry matches. -/
def DataCleaning.run_bulk (entries : List Entry) (start_date end_date : Int) :
    Option (List PriceRecord) :=
  let results := (entries.filter fun e =>
    decide (start_date ≤ epochMsToJakartaDate e.ts ∧
            epochMsToJakartaDate e.ts ≤ end_date)).map parse_entry
  if results.isEmpty then none else some results

/-- The entries `_run_bulk` keeps: Jakarta date within the inclusive range. -/
def bulkKept (entries : List Entry) (sd ed : Int) : List Entry :=
  entries.filter fun e =>
    decide (sd ≤ epochMsToJakartaDate e.ts ∧ epochMsToJakartaDate e.ts ≤ ed)

/-- Result of `DataCleaning.run`: a single dict in single-date mode, a list
of dicts in bulk mode. -/
inductive CleanedData
  | one : PriceRecord → CleanedData
  | many : List PriceRecord → CleanedData
deriving DecidableEq, Repr

/-- `DataCleaning.run` from `harga_emas_ubs.py`: guard against missing data,
then dispatch to bulk mode when both range dates are given, else single-date
mode with `target_date or today`. `today` models `datetime.now(...).date()`. -/
def DataCleaning.run (data : List Series) (today : Int)
    (target_date start_date end_date : Option Int) : Option CleanedData :=
  match data with
  | [] => none
  | s :: _ =>
    if s.data.isEmpty then none
    else
      match start_date, end_date with
      | some a, some b => (DataCleaning.run_bulk s.data a b).map .many
      | _, _ => (DataCleaning.run_single s.data (target_date.getD today)).map .one

/-- `DataStoring.FIELD_NAMES` of the UBS path. -/
def ubsHeader : List String := ["id", "price", "date", "timestamp"]

/-- `DataStoring._build_row` from `harga_emas_ubs.py`; the fresh
`uuid.uuid4()` and `datetime.now(...)` values are passed in. -/
def DataStoring.build_row (entry : PriceRecord) (id ts : String) : List String :=
  [id, toString entry.price, toString entry.date, ts]

/-- The append-mode CSV write shared by both paths: `open(..., "a")`, write a
header row when `f.tell() == 0` (the file is currently empty), then append the
data rows. The file is modelled as its list of rows. -/
def csvAppend (header : List String) (rows : List (List String))
    (file : List (List String)) : List (List String) :=
  if file.isEmpty then (file ++ [header]) ++ rows else file ++ rows

/-- A sequence of append-mode stores against the same file. -/
def csvAppendSeq (header : List String) (batches : List (List (List String)))
    (file : List (List String)) : List (List String) :=
  batches.foldl (fun f rows => csvAppend header rows f) file

/-- `open(output_file, "a")` on a possibly nonexistent file: append mode
creates an empty file when none exists. -/
def openAppend (file : Option (List (List String))) : List (List String) :=
  file.getD []

/-- The data rows one UBS `DataStoring.run` call writes: one `_build_row` per
entry, in input order. -/
def ubsRows (price_data : CleanedData) (freshId freshTs : Nat → String) :
    List (List String) :=
  let entries := match price_data with
    | .one r => [r]
    | .many l => l
  (List.range entries.length).zip entries |>.map
    fun p => DataStoring.build_row p.2 (freshId p.1) (freshTs p.1)

/-- `DataStoring.run` from `harga_emas_ubs.py`: wrap a single record into a
list, then append one row per entry, writing the header first iff the file is
empty at open time. `freshId i` / `freshTs i` model the `uuid.uuid4()` and
`datetime.now(...)` drawn for the `i`-th row. -/
def DataStoring.run (price_data : CleanedData) (freshId freshTs : Nat → String)
    (file : List (List String)) : List (List String) :=
  csvAppend ubsHeader (ubsRows price_data freshId freshTs) file

namespace Pegadaian

/-- Outcome of one scraping attempt (`run_scraper` inside a fresh downloader):
it returned a filename, returned `None`, or the attempt raised. -/
inductive AttemptOutcome
  | ok : Option String → AttemptOutcome
  | exc : AttemptOutcome
deriving DecidableEq, Repr

/-- A proxy attempt advances to the next proxy when it raised or returned a
null result. -/
def attemptFailed : AttemptOutcome → Bool
  | .ok none => true
  | .exc => true
  | .ok (some _) => false

/-- The unproxied run `downloader = cls(); try: return downloader.run_scraper()
finally: ...`: used both for an empty proxy list and as the last-resort
fallback. An exception here is not caught and propagates (`.error`). The first
component records the attempt made. -/
def finalAttempt (attempt : Option String → AttemptOutcome) :
    List (Option String) × Except Unit (Option String) :=
  match attempt none with
  | .ok r => ([none], .ok r)
  | .exc => ([none], .error ())

/-- The proxy loop of `HTMLDownloader.run_with_proxy_rotation`: try each proxy
in order; a non-null result returns immediately; an exception or null result
advances; after the last proxy, fall back to one unproxied attempt. Returns
the ordered trace of attempts made (`some proxy` or `none` for unproxied)
together with the overall outcome. -/
def tryProxies (attempt : Option String → AttemptOutcome) :
    List String → List (Option String) × Except Unit (Option String)
  | [] => finalAttempt attempt
  | p :: rest =>
    match attempt (some p) with
    | .ok (some s) => ([some p], .ok (some s))
    | .ok none =>
      let r := tryProxies attempt rest
      (some p :: r.1, r.2)
    | .exc =>
      let r := tryProxies attempt rest
      (some p :: r.1, r.2)

/-- `HTMLDownloader.run_with_proxy_rotation` from `harga_emas_pegadaian.py`:
with no proxies, run once unproxied; otherwise run the proxy loop with the
unproxied last resort. -/
def run_with_proxy_rotation (attempt : Option String → AttemptOutcome)
    (proxies : List String) : List (Option String) × Except Unit (Option String) :=
  match proxies with
  | [] => finalAttempt attempt
  | p :: rest => tryProxies attempt (p :: rest)

/-- A concrete attempt behaviour where every proxy fails (one by a null
result, the others by raising) and the unproxied run also returns null. -/
def rotationWitnessAttempt : Option String → AttemptOutcome
  | none => .ok none
  | some p => if p = "b" then .ok none else .exc

/-- `as` is a prefix of `bs` (character lists). -/
def prefixOfChars : List Char → List Char → Bool
  | [], _ => true
  | _ :: _, [] => false
  | a :: as, b :: bs => a == b && prefixOfChars as bs

/-- `needle` occurs as a contiguous substring of the character list. -/
def containsChars (needle : List Char) : List Char → Bool
  | [] => needle.isEmpty
  | c :: t => prefixOfChars needle (c :: t) || containsChars needle t

/-- Python's `needle in hay` on strings. -/
def containsSub (hay needle : String) : Bool :=
  containsChars needle.data hay.data

/-- ASCII case folding of one character (`str.lower()` restricted to the
ASCII range, which covers the markup and the indicator tokens). -/
def lowerChar (c : Char) : Char :=
  if 'A' ≤ c ∧ c ≤ 'Z' then Char.ofNat (c.toNat + 32) else c

/-- `str.lower()` on a character list. -/
def toLowerChars (s : List Char) : List Char := s.map lowerChar

/-- Python's `needle.lower() in hay.lower()`. -/
def lowerSub (hay needle : String) : Bool :=
  containsChars (toLowerChars needle.data) (toLowerChars hay.data)

/-- The parsed HTML artifact as the Markup Extractor sees it: the text nodes
BeautifulSoup yields for `find_all(string=...)`, plus the raw file content
used by the loading-state check. -/
structure HtmlArtifact where
  textNodes : List String
  raw : String

/-- `DataCleaning.get_price_list`: all text nodes matching `re.compile("Rp ")`
(an unanchored search, i.e. containing the substring `"Rp "`). -/
def DataCleaning.get_price_list (a : HtmlArtifact) : List String :=
  a.textNodes.filter fun s => containsSub s "Rp "

/-- `"".join(re.findall(r'\d+', item))`: concatenating the maximal digit runs
keeps exactly the digit characters in order. -/
def cleanPrice (s : String) : String :=
  String.mk (s.data.filter Char.isDigit)

/-- The fixed `loading_indicators` list of `DataCleaning._check_loading_state`. -/
def loading_indicators : List String := ["loading-spinner", "skeleton", "nuxt-loading"]

/-- `DataCleaning._check_loading_state`: the indicators whose lowercase form
occurs in the lowercased raw markup. -/
def DataCleaning.check_loading_state (a : HtmlArtifact) : List String :=
  loading_indicators.filter fun ind => lowerSub a.raw ind

/-- `DataCleaning.EXPECTED_PRICE_COUNT = 2`. -/
def EXPECTED_PRICE_COUNT : Nat := 2

/-- Result of the Pegadaian `DataCleaning.run`: the cleaned prices, or `None`
classified by the distinct log message (still loading vs. structure changed). -/
inductive CleanResult
  | prices : List String → CleanResult
  | stillLoading : CleanResult
  | structureChanged : CleanResult
deriving DecidableEq, Repr

/-- `DataCleaning.run` from `harga_emas_pegadaian.py`: clean every
currency-marked node to its digits; if fewer than the expected count were
found, classify via the loading-state check and return absent. -/
def DataCleaning.run (a : HtmlArtifact) : CleanResult :=
  let cleaned_prices := (DataCleaning.get_price_list a).map cleanPrice
  if cleaned_prices.length < EXPECTED_PRICE_COUNT then
    if (DataCleaning.check_loading_state a).isEmpty then
      .structureChanged
    else
      .stillLoading
  else
    .prices cleaned_prices

/-- The Pegadaian CSV `field_names`. -/
def pegadaianHeader : List String := ["id", "harga_beli", "harga_jual", "timestamp"]

/-- `DataStoring.process_new_data`: raise `ValueError` when the price list is
falsy or shorter than 2, else build the row; `id`/`ts` are the fresh
`uuid.uuid4()` and `datetime.now(...)` values. -/
def DataStoring.process_new_data (price_list : Option (List String))
    (id ts : String) : Except String (List String) :=
  match price_list with
  | none => .error "Invalid price list"
  | some l =>
    if l.length < 2 then .error "Invalid price list"
    else .ok [id, l.getD 0 "", l.getD 1 "", ts]

/-- `DataStoring.insert_new_data`: open for append, write the header when
`f.tell() == 0`, then write the row built by `process_new_data`. The header
write happens before `process_new_data` is evaluated, so it persists even when
the row raises; the second component is the normal/exceptional outcome. -/
def DataStoring.insert_new_data (price_list : Option (List String))
    (id ts : String) (file : List (List String)) :
    List (List String) × Except String Unit :=
  let f1 := if file.isEmpty then file ++ [pegadaianHeader] else file
  match DataStoring.process_new_data price_list id ts with
  | .error e => (f1, .error e)
  | .ok row => (f1 ++ [row], .ok ())

/-- The data rows a single Pegadaian `insert_new_data` call writes after the
header decision: the built row, or nothing when `process_new_data` raises. -/
def pegadaianWrittenRows (price_list : Option (List String)) (id ts : String) :
    List (List String) :=
  match DataStoring.process_new_data price_list id ts with
  | .ok row => [row]
  | .error _ => []

/-- The filesystem state the Pegadaian `DataStoring.run` touches: the output
CSV rows and whether the consumed HTML artifact still exists. -/
structure PegFs where
  output : List (List String)
  artifactOnDisk : Bool
deriving DecidableEq, Repr

/-- `DataStoring.run` from `harga_emas_pegadaian.py`:
`self.insert_new_data(); os.remove(self.html_file)` — the artifact is removed
only after the insert returns normally; an exception skips the removal. -/
def DataStoring.run (price_list : Option (List String)) (id ts : String)
    (fs : PegFs) : PegFs × Except String Unit :=
  match DataStoring.insert_new_data price_list id ts fs.output with
  | (out, .ok ()) => ({ output := out, artifactOnDisk := false }, .ok ())
  | (out, .error e) => ({ output := out, artifactOnDisk := fs.artifactOnDisk }, .error e)

end Pegadaian

/-- A CSV field must be quoted when it contains the delimiter, the quote
character or a line break (`csv.QUOTE_MINIMAL`). -/
def csvNeedsQuote (f : List Char) : Bool :=
  f.any fun c => c = ',' || c = '"' || c = '\n' || c = '\r'

/-- `csv.writer` field encoding: double the quotes and wrap in quotes when
needed, else write the field verbatim. -/
def csvEscapeField (f : List Char) : List Char :=
  if csvNeedsQuote f then
    '"' :: ((f.map fun c => if c = '"' then ['"', '"'] else [c]).flatten ++ ['"'])
  else f

/-- Join fields with the comma delimiter. -/
def joinComma : List (List Char) → List Char
  | [] => []
  | [f] => f
  | f :: rest => f ++ ',' :: joinComma rest

/-- One CSV data line as `csv.DictWriter.writerow` emits it. -/
def writeRow (fields : List (List Char)) : List Char :=
  joinComma (fields.map csvEscapeField)

/-- Split a line at commas, accumulating the current field in reverse. -/
def splitCommaAux : List Char → List Char → List (List Char)
  | [], acc => [acc.reverse]
  | c :: rest, acc =>
    if c = ',' then acc.reverse :: splitCommaAux rest []
    else splitCommaAux rest (c :: acc)

/-- `csv.reader` on a line none of whose fields were quoted: split at commas. -/
def readRow (line : List Char) : List (List Char) :=
  splitCommaAux line []

/-- Closed form of `select_interval`: the thresholds of the fixed interval
list in order. -/
theorem select_interval_eq (s e : Int) :
    select_interval s e =
      if (e - s) + 1 ≤ 7 then 7
      else if (e - s) + 1 ≤ 30 then 30
      else if (e - s) + 1 ≤ 90 then 90
      else if (e - s) + 1 ≤ 180 then 180
      else if (e - s) + 1 ≤ 365 then 365
      else 1095 := by
  simp only [select_interval, AVAILABLE_INTERVALS]
  by_cases h1 : e - s + 1 ≤ 7
  · rw [List.find?_cons_of_pos _ (by simpa using h1)]; simp [h1]
  · rw [List.find?_cons_of_neg _ (by simpa using h1)]
    by_cases h2 : e - s + 1 ≤ 30
    · rw [List.find?_cons_of_pos _ (by simpa using h2)]; simp [h1, h2]
    · rw [List.find?_cons_of_neg _ (by simpa using h2)]
      by_cases h3 : e - s + 1 ≤ 90
      · rw [List.find?_cons_of_pos _ (by simpa using h3)]; simp [h1, h2, h3]
      · rw [List.find?_cons_of_neg _ (by simpa using h3)]
        by_cases h4 : e - s + 1 ≤ 180
        · rw [List.find?_cons_of_pos _ (by simpa using h4)]; simp [h1, h2, h3, h4]
        · rw [List.find?_cons_of_neg _ (by simpa using h4)]
          by_cases h5 : e - s + 1 ≤ 365
          · rw [List.find?_cons_of_pos _ (by simpa using h5)]; simp [h1, h2, h3, h4, h5]
          · rw [List.find?_cons_of_neg _ (by simpa using h5)]
            by_cases h6 : e - s + 1 ≤ 1095
            · rw [List.find?_cons_of_pos _ (by simpa using h6)]; simp [h1, h2, h3, h4, h5]
            · rw [List.find?_cons_of_neg _ (by simpa using h6)]; simp [h1, h2, h3, h4, h5]

/-- C2: for `start_date ≤ end_date`, `select_interval` returns an element of
the fixed granularity list that covers the inclusive day count and is minimal
among the covering elements; when nothing covers, it returns 1095; and
`select_interval d d = 7` for every date `d`. -/
theorem select_interval_covers (s e : Int) (h : s ≤ e) :
    select_interval s e ∈ AVAILABLE_INTERVALS ∧
    ((∃ i ∈ AVAILABLE_INTERVALS, (e - s) + 1 ≤ i) → (e - s) + 1 ≤ select_interval s e ∧
      ∀ i ∈ AVAILABLE_INTERVALS, (e - s) + 1 ≤ i → select_interval s e ≤ i) ∧
    ((∀ i ∈ AVAILABLE_INTERVALS, i < (e - s) + 1) → select_interval s e = 1095) ∧
    (∀ d : Int, select_interval d d = 7) := by
  refine ⟨?_, ?_, ?_, fun d => by rw [select_interval_eq]; norm_num⟩
  · rw [select_interval_eq]
    split_ifs <;> norm_num [AVAILABLE_INTERVALS]
  · rintro ⟨i, hi, hle⟩
    constructor
    · rw [select_interval_eq]
      split_ifs with h1 h2 h3 h4 h5 <;> fin_cases hi <;> omega
    · intro j hj hjle
      rw [select_interval_eq]
      split_ifs with h1 h2 h3 h4 h5 <;> fin_cases hj <;> omega
  · intro hall
    have h1095 := hall 1095 (by norm_num [AVAILABLE_INTERVALS])
    rw [select_interval_eq]
    split_ifs with h1 h2 h3 h4 h5 <;> omega

/-- Witness for `select_interval_covers` at the concrete range day 0 .. day 9
(10 inclusive days, so the smallest covering granularity is 30). -/
theorem select_interval_covers_witness :
    (0 : Int) ≤ 9 ∧
    (select_interval 0 9 ∈ AVAILABLE_INTERVALS ∧
    ((∃ i ∈ AVAILABLE_INTERVALS, (9 - 0) + 1 ≤ i) → (9 - 0) + 1 ≤ select_interval 0 9 ∧
      ∀ i ∈ AVAILABLE_INTERVALS, (9 - 0) + 1 ≤ i → select_interval 0 9 ≤ i) ∧
    ((∀ i ∈ AVAILABLE_INTERVALS, i < (9 - 0) + 1) → select_interval 0 9 = 1095) ∧
    (∀ d : Int, select_interval d d = 7)) :=
  ⟨by norm_num, select_interval_covers 0 9 (by norm_num)⟩

/-- C9: `select_interval` is total also on inverted ranges: whenever
`end_date < start_date`, the inclusive day count is `≤ 0` and the first
granularity 7 already satisfies the comparison, so the result is 7. -/
theorem select_interval_inverted_range (s e : Int) (h : e < s) :
    select_interval s e = 7 := by
  rw [select_interval_eq]
  split_ifs with h1 <;> omega

/-- Witness for `select_interval_inverted_range` at the concrete inverted
range day 5 .. day 2. -/
theorem select_interval_inverted_range_witness :
    (2 : Int) < 5 ∧ select_interval 5 2 = 7 :=
  ⟨by norm_num, select_interval_inverted_range 5 2 (by norm_num)⟩

/-- C3: in single-date mode (both range dates absent), the extractor looks
only at the last entry of the first series: on a date match it returns exactly
one record carrying that entry's closing value, on a mismatch it returns
absent, and any entry list with the same last entry gives the same result. -/
theorem ubs_run_single_spec (name : String) (rest : List Series)
    (entries : List Entry) (today target : Int) (latest : Entry)
    (hlast : entries.getLast? = some latest) :
    (DataCleaning.run (({name := name, data := entries} : Series) :: rest)
        today (some target) none none
      = (DataCleaning.run_single entries target).map CleanedData.one) ∧
    (epochMsToJakartaDate latest.ts = target →
      DataCleaning.run_single entries target =
        some { price := latest.closeV, date := epochMsToJakartaDate latest.ts }) ∧
    (epochMsToJakartaDate latest.ts ≠ target →
      DataCleaning.run_single entries target = none) ∧
    (∀ entries₂ : List Entry, entries₂.getLast? = entries.getLast? →
      DataCleaning.run_single entries₂ target = DataCleaning.run_single entries target) := by
  have hne : entries ≠ [] := by
    intro hnil; subst hnil; simp at hlast
  refine ⟨?_, ?_, ?_, ?_⟩
  · simp [DataCleaning.run, List.isEmpty_iff, hne]
  · intro heq
    simp [DataCleaning.run_single, hlast, heq, parse_entry]
  · intro hne'
    simp [DataCleaning.run_single, hlast, hne']
  · intro es2 h2
    unfold DataCleaning.run_single
    rw [h2]

/-- Witness for `ubs_run_single_spec`: a two-entry series whose last entry
falls on Jakarta day 10 (`ts = 10 * 86400000`), queried for target day 10. -/
theorem ubs_run_single_spec_witness :
    ([⟨0, 1, 2, 3, 100⟩, ⟨864000000, 4, 5, 6, 250⟩] : List Entry).getLast?
        = some ⟨864000000, 4, 5, 6, 250⟩ ∧
    ((DataCleaning.run
        (({name := "GOLD",
           data := [⟨0, 1, 2, 3, 100⟩, ⟨864000000, 4, 5, 6, 250⟩]} : Series) :: [])
        99 (some 10) none none
      = (DataCleaning.run_single [⟨0, 1, 2, 3, 100⟩, ⟨864000000, 4, 5, 6, 250⟩] 10).map
          CleanedData.one) ∧
    (epochMsToJakartaDate (864000000 : Int) = 10 →
      DataCleaning.run_single [⟨0, 1, 2, 3, 100⟩, ⟨864000000, 4, 5, 6, 250⟩] 10 =
        some { price := 250, date := epochMsToJakartaDate (864000000 : Int) }) ∧
    (epochMsToJakartaDate (864000000 : Int) ≠ 10 →
      DataCleaning.run_single [⟨0, 1, 2, 3, 100⟩, ⟨864000000, 4, 5, 6, 250⟩] 10 = none) ∧
    (∀ entries₂ : List Entry,
      entries₂.getLast? = ([⟨0, 1, 2, 3, 100⟩, ⟨864000000, 4, 5, 6, 250⟩] : List Entry).getLast? →
      DataCleaning.run_single entries₂ 10 =
        DataCleaning.run_single [⟨0, 1, 2, 3, 100⟩, ⟨864000000, 4, 5, 6, 250⟩] 10)) :=
  ⟨by decide,
   ubs_run_single_spec "GOLD" [] [⟨0, 1, 2, 3, 100⟩, ⟨864000000, 4, 5, 6, 250⟩]
     99 10 ⟨864000000, 4, 5, 6, 250⟩ (by decide)⟩

/-- `_run_bulk` as the filtered-and-parsed list, `none` when the filter keeps
nothing. -/
theorem run_bulk_eq (entries : List Entry) (sd ed : Int) :
    DataCleaning.run_bulk entries sd ed =
      if bulkKept entries sd ed = [] then none
      else some ((bulkKept entries sd ed).map parse_entry) := by
  unfold DataCleaning.run_bulk bulkKept
  by_cases h : (entries.filter fun e =>
      decide (sd ≤ epochMsToJakartaDate e.ts ∧ epochMsToJakartaDate e.ts ≤ ed)) = []
  · rw [if_pos (by rw [List.isEmpty_iff, List.map_eq_nil_iff]; exact h), if_pos h]
  · rw [if_neg (by rw [List.isEmpty_iff, List.map_eq_nil_iff]; exact h), if_neg h]

/-- C4: in range mode (both range dates present), the extractor returns the
in-range entries of the first series parsed in original order — every emitted
record's date lies in the inclusive range and the output is a sublist of the
whole parsed series — and returns absent exactly when no entry's Jakarta date
falls within `[start_date, end_date]`. -/
theorem ubs_run_bulk_spec (name : String) (rest : List Series)
    (entries : List Entry) (today sd ed : Int) (hne : entries ≠ []) :
    (DataCleaning.run (({name := name, data := entries} : Series) :: rest)
        today none (some sd) (some ed)
      = (DataCleaning.run_bulk entries sd ed).map CleanedData.many) ∧
    (∀ l, DataCleaning.run_bulk entries sd ed = some l →
      l = (bulkKept entries sd ed).map parse_entry ∧
      (∀ r ∈ l, sd ≤ r.date ∧ r.date ≤ ed) ∧
      l.Sublist (entries.map parse_entry)) ∧
    (DataCleaning.run_bulk entries sd ed = none ↔
      ∀ e ∈ entries, ¬(sd ≤ epochMsToJakartaDate e.ts ∧ epochMsToJakartaDate e.ts ≤ ed)) := by
  refine ⟨?_, ?_, ?_⟩
  · simp [DataCleaning.run, List.isEmpty_iff, hne]
  · intro l hl
    rw [run_bulk_eq] at hl
    by_cases hk : bulkKept entries sd ed = []
    · rw [if_pos hk] at hl; exact absurd hl (by simp)
    · rw [if_neg hk] at hl
      have hl2 : (bulkKept entries sd ed).map parse_entry = l := by
        injection hl
      refine ⟨hl2.symm, ?_, ?_⟩
      · intro r hr
        rw [← hl2] at hr
        obtain ⟨e, he, hre⟩ := List.mem_map.mp hr
        unfold bulkKept at he
        have hmem := (List.mem_filter.mp he).2
        simp only [decide_eq_true_eq] at hmem
        rw [← hre]
        exact hmem
      · rw [← hl2]
        exact (List.filter_sublist _).map parse_entry
  · rw [run_bulk_eq]
    by_cases hk : bulkKept entries sd ed = []
    · rw [if_pos hk]
      refine ⟨fun _ => ?_, fun _ => rfl⟩
      unfold bulkKept at hk
      rw [List.filter_eq_nil_iff] at hk
      intro e he
      simpa using hk e he
    · rw [if_neg hk]
      constructor
      · intro h; exact (Option.some_ne_none _ h).elim
      · intro hall
        refine absurd ?_ hk
        unfold bulkKept
        rw [List.filter_eq_nil_iff]
        intro e he
        simpa using hall e he

/-- Witness for `ubs_run_bulk_spec`: entries on Jakarta days 8, 9, 10, 11
with the requested range `[9, 10]` (the spec's `[D-2 .. D+1]` example). -/
theorem ubs_run_bulk_spec_witness :
    ([⟨691200000, 0, 0, 0, 80⟩, ⟨777600000, 0, 0, 0, 90⟩,
      ⟨864000000, 0, 0, 0, 100⟩, ⟨950400000, 0, 0, 0, 110⟩] : List Entry) ≠ [] ∧
    ((DataCleaning.run
        (({name := "GOLD",
           data := [⟨691200000, 0, 0, 0, 80⟩, ⟨777600000, 0, 0, 0, 90⟩,
                    ⟨864000000, 0, 0, 0, 100⟩, ⟨950400000, 0, 0, 0, 110⟩]} : Series) :: [])
        99 none (some 9) (some 10)
      = (DataCleaning.run_bulk
          [⟨691200000, 0, 0, 0, 80⟩, ⟨777600000, 0, 0, 0, 90⟩,
           ⟨864000000, 0, 0, 0, 100⟩, ⟨950400000, 0, 0, 0, 110⟩] 9 10).map
          CleanedData.many) ∧
    (∀ l, DataCleaning.run_bulk
        [⟨691200000, 0, 0, 0, 80⟩, ⟨777600000, 0, 0, 0, 90⟩,
         ⟨864000000, 0, 0, 0, 100⟩, ⟨950400000, 0, 0, 0, 110⟩] 9 10 = some l →
      l = (bulkKept
          [⟨691200000, 0, 0, 0, 80⟩, ⟨777600000, 0, 0, 0, 90⟩,
           ⟨864000000, 0, 0, 0, 100⟩, ⟨950400000, 0, 0, 0, 110⟩] 9 10).map parse_entry ∧
      (∀ r ∈ l, 9 ≤ r.date ∧ r.date ≤ 10) ∧
      l.Sublist (([⟨691200000, 0, 0, 0, 80⟩, ⟨777600000, 0, 0, 0, 90⟩,
                   ⟨864000000, 0, 0, 0, 100⟩, ⟨950400000, 0, 0, 0, 110⟩] : List Entry).map
                 parse_entry)) ∧
    (DataCleaning.run_bulk
        [⟨691200000, 0, 0, 0, 80⟩, ⟨777600000, 0, 0, 0, 90⟩,
         ⟨864000000, 0, 0, 0, 100⟩, ⟨950400000, 0, 0, 0, 110⟩] 9 10 = none ↔
      ∀ e ∈ ([⟨691200000, 0, 0, 0, 80⟩, ⟨777600000, 0, 0, 0, 90⟩,
              ⟨864000000, 0, 0, 0, 100⟩, ⟨950400000, 0, 0, 0, 110⟩] : List Entry),
        ¬((9 : Int) ≤ epochMsToJakartaDate e.ts ∧ epochMsToJakartaDate e.ts ≤ 10))) :=
  ⟨by decide,
   ubs_run_bulk_spec "GOLD" []
     [⟨691200000, 0, 0, 0, 80⟩, ⟨777600000, 0, 0, 0, 90⟩,
      ⟨864000000, 0, 0, 0, 100⟩, ⟨950400000, 0, 0, 0, 110⟩]
     99 9 10 (by decide)⟩

/-- Appending to a non-empty file never writes a header, across any sequence
of stores. -/
theorem csvAppendSeq_nonempty (header : List String) :
    ∀ (batches : List (List (List String))) (file : List (List String)),
      file ≠ [] → csvAppendSeq header batches file = file ++ batches.flatten := by
  intro batches
  induction batches with
  | nil => intro file _; simp [csvAppendSeq]
  | cons b bs ih =>
    intro file hf
    have hstep : csvAppend header b file = file ++ b := by
      unfold csvAppend
      rw [if_neg (by simpa [List.isEmpty_iff] using hf)]
    have hne2 : file ++ b ≠ [] := by simp [List.append_eq_nil, hf]
    unfold csvAppendSeq at ih ⊢
    rw [List.foldl_cons, hstep, ih (file ++ b) hne2, List.flatten_cons,
      List.append_assoc]

/-- C6: across every sequence of stores to the same output file the header row
is written exactly once — a store to a nonexistent or empty file (both open as
write position 0) writes the header followed by the data rows, every store to
a non-empty file appends its rows without a header, and any nonempty sequence
of stores starting from empty yields the header followed by all data rows;
the Pegadaian single-row insert follows the same discipline. -/
theorem record_store_header_once (price_data : CleanedData)
    (freshId freshTs : Nat → String) :
    (openAppend none = openAppend (some [])) ∧
    (DataStoring.run price_data freshId freshTs (openAppend none)
       = ubsHeader :: ubsRows price_data freshId freshTs) ∧
    (∀ file : List (List String), file ≠ [] →
       DataStoring.run price_data freshId freshTs file
         = file ++ ubsRows price_data freshId freshTs) ∧
    (∀ batches : List (List (List String)), batches ≠ [] →
       csvAppendSeq ubsHeader batches [] = ubsHeader :: batches.flatten) ∧
    (∀ (pl : Option (List String)) (id ts : String) (file : List (List String)),
       (Pegadaian.DataStoring.insert_new_data pl id ts file).1 =
         (if file = [] then [Pegadaian.pegadaianHeader] else file) ++
           Pegadaian.pegadaianWrittenRows pl id ts) := by
  refine ⟨rfl, ?_, ?_, ?_, ?_⟩
  · unfold DataStoring.run csvAppend openAppend
    simp
  · intro file hf
    unfold DataStoring.run csvAppend
    rw [if_neg (by simpa [List.isEmpty_iff] using hf)]
  · intro batches hb
    cases batches with
    | nil => exact absurd rfl hb
    | cons b bs =>
      have h1 : csvAppend ubsHeader b [] = ubsHeader :: b := by
        unfold csvAppend; simp
      have h2 := csvAppendSeq_nonempty ubsHeader bs (ubsHeader :: b) (by simp)
      unfold csvAppendSeq at h2 ⊢
      rw [List.foldl_cons, h1, h2, List.flatten_cons]
      simp
  · intro pl id ts file
    unfold Pegadaian.DataStoring.insert_new_data Pegadaian.pegadaianWrittenRows
    by_cases hf : file = []
    · subst hf
      cases Pegadaian.DataStoring.process_new_data pl id ts <;> simp
    · rw [if_neg hf]
      cases Pegadaian.DataStoring.process_new_data pl id ts <;>
        simp [List.isEmpty_iff, hf]

/-- Witness for `record_store_header_once`: a second store to a file already
holding the header appends exactly the data rows, and a two-store sequence
from empty yields one header followed by both data rows. -/
theorem record_store_header_once_witness :
    ([ubsHeader] : List (List String)) ≠ [] ∧
    DataStoring.run (.one ⟨100, 10⟩) (fun _ => "id0") (fun _ => "t0") [ubsHeader]
      = [ubsHeader] ++ ubsRows (.one ⟨100, 10⟩) (fun _ => "id0") (fun _ => "t0") ∧
    ([[["a"]], [["b"]]] : List (List (List String))) ≠ [] ∧
    csvAppendSeq ubsHeader [[["a"]], [["b"]]] []
      = ubsHeader :: ([[["a"]], [["b"]]] : List (List (List String))).flatten :=
  ⟨by decide,
   (record_store_header_once (.one ⟨100, 10⟩) (fun _ => "id0") (fun _ => "t0")).2.2.1
     [ubsHeader] (by decide),
   by decide,
   (record_store_header_once (.one ⟨100, 10⟩) (fun _ => "id0") (fun _ => "t0")).2.2.2.1
     [[["a"]], [["b"]]] (by decide)⟩

namespace Pegadaian

/-- `run_with_proxy_rotation` is the proxy loop for every input: the
empty-list branch and the loop's base case are the same unproxied run. -/
theorem run_eq_tryProxies (attempt : Option String → AttemptOutcome)
    (proxies : List String) :
    run_with_proxy_rotation attempt proxies = tryProxies attempt proxies := by
  cases proxies <;> rfl

/-- When every proxy attempt fails, the loop visits each proxy in order and
ends with the unproxied last resort. -/
theorem tryProxies_all_fail (attempt : Option String → AttemptOutcome) :
    ∀ ps : List String, (∀ q ∈ ps, attemptFailed (attempt (some q)) = true) →
      tryProxies attempt ps = (ps.map some ++ [none], (finalAttempt attempt).2) := by
  intro ps
  induction ps with
  | nil =>
    intro _
    unfold tryProxies finalAttempt
    cases attempt none <;> rfl
  | cons p rest ih =>
    intro hall
    have hp := hall p (List.mem_cons_self p rest)
    unfold tryProxies
    cases hA : attempt (some p) with
    | ok r =>
      cases r with
      | some s => rw [hA] at hp; simp [attemptFailed] at hp
      | none => simp [ih (fun q hq => hall q (List.mem_cons_of_mem p hq))]
    | exc => simp [ih (fun q hq => hall q (List.mem_cons_of_mem p hq))]

/-- The first successful proxy attempt short-circuits the loop. -/
theorem tryProxies_prefix_success (attempt : Option String → AttemptOutcome)
    (s : String) :
    ∀ (pre : List String) (p : String) (post : List String),
      (∀ q ∈ pre, attemptFailed (attempt (some q)) = true) →
      attempt (some p) = .ok (some s) →
      tryProxies attempt (pre ++ p :: post) = (pre.map some ++ [some p], .ok (some s)) := by
  intro pre
  induction pre with
  | nil =>
    intro p post _ hp
    unfold tryProxies
    rw [List.nil_append]
    simp [hp]
  | cons q rest ih =>
    intro p post hall hp
    have hq := hall q (List.mem_cons_self q rest)
    rw [List.cons_append]
    unfold tryProxies
    cases hA : attempt (some q) with
    | ok r =>
      cases r with
      | some s2 => rw [hA] at hq; simp [attemptFailed] at hq
      | none => simp [ih p post (fun x hx => hall x (List.mem_cons_of_mem q hx)) hp]
    | exc => simp [ih p post (fun x hx => hall x (List.mem_cons_of_mem q hx)) hp]

/-- C1: proxy rotation attempts proxies strictly in list (rank) order; with an
empty list it makes exactly one unproxied attempt; the first attempt returning
a non-null artifact short-circuits and its artifact is returned; raising or
null attempts advance; and when every proxy fails the trace is all proxies in
order followed by one final unproxied attempt, whose own null failure makes
the whole operation return absent. -/
theorem run_with_proxy_rotation_spec (attempt : Option String → AttemptOutcome)
    (proxies : List String) :
    ((run_with_proxy_rotation attempt []).1 = [none]) ∧
    (∀ (pre : List String) (p : String) (post : List String) (s : String),
      proxies = pre ++ p :: post →
      (∀ q ∈ pre, attemptFailed (attempt (some q)) = true) →
      attempt (some p) = .ok (some s) →
      run_with_proxy_rotation attempt proxies = (pre.map some ++ [some p], .ok (some s))) ∧
    ((∀ q ∈ proxies, attemptFailed (attempt (some q)) = true) →
      (run_with_proxy_rotation attempt proxies).1 = proxies.map some ++ [none] ∧
      (attempt none = .ok none →
        (run_with_proxy_rotation attempt proxies).2 = .ok none)) := by
  refine ⟨?_, ?_, ?_⟩
  · rw [run_eq_tryProxies]
    unfold tryProxies finalAttempt
    cases attempt none <;> rfl
  · rintro pre p post s rfl hall hp
    rw [run_eq_tryProxies, tryProxies_prefix_success attempt s pre p post hall hp]
  · intro hall
    rw [run_eq_tryProxies, tryProxies_all_fail attempt proxies hall]
    refine ⟨rfl, fun hn => ?_⟩
    unfold finalAttempt
    rw [hn]

/-- Witness for `run_with_proxy_rotation_spec`: three proxies that all fail
produce exactly four attempts — the three proxies in order plus the final
unproxied one — and the operation returns absent. -/
theorem run_with_proxy_rotation_spec_witness :
    run_with_proxy_rotation rotationWitnessAttempt ["a", "b", "c"]
      = ([some "a", some "b", some "c", none], Except.ok none) := by
  obtain ⟨h1, h2⟩ :=
    (run_with_proxy_rotation_spec rotationWitnessAttempt ["a", "b", "c"]).2.2 (by decide)
  exact Prod.ext h1 (h2 (by decide))

/-- C5: the Markup Extractor reduces each currency-marked node to its digits
(`"Rp 1.234.567"` to `"1234567"`, `"Rp 2.000.000"` to `"2000000"`); with
fewer than the expected 2 prices it returns absent, classified still-loading
exactly when some fixed loading indicator occurs case-insensitively in the
raw markup and structure-changed otherwise; with enough prices it returns the
digit-only strings of all currency-marked nodes. -/
theorem markup_extractor_spec (a : HtmlArtifact) :
    (cleanPrice "Rp 1.234.567" = "1234567" ∧ cleanPrice "Rp 2.000.000" = "2000000") ∧
    (((DataCleaning.get_price_list a).map cleanPrice).length < EXPECTED_PRICE_COUNT →
      (DataCleaning.run a = .stillLoading ↔
        ∃ ind ∈ loading_indicators, lowerSub a.raw ind = true) ∧
      (DataCleaning.run a = .structureChanged ↔
        ∀ ind ∈ loading_indicators, lowerSub a.raw ind = false)) ∧
    (¬ ((DataCleaning.get_price_list a).map cleanPrice).length < EXPECTED_PRICE_COUNT →
      DataCleaning.run a = .prices ((DataCleaning.get_price_list a).map cleanPrice)) := by
  have hfilter : DataCleaning.check_loading_state a = [] ↔
      ∀ ind ∈ loading_indicators, lowerSub a.raw ind = false := by
    unfold DataCleaning.check_loading_state
    rw [List.filter_eq_nil_iff]
    simp [Bool.not_eq_true]
  refine ⟨⟨by decide, by decide⟩, ?_, ?_⟩
  · intro hlt
    unfold DataCleaning.run
    rw [if_pos hlt]
    by_cases hc : DataCleaning.check_loading_state a = []
    · rw [if_pos (by simp [hc])]
      refine ⟨⟨fun h => absurd h (by decide), ?_⟩, fun _ => hfilter.mp hc, fun _ => rfl⟩
      rintro ⟨ind, hind, hcont⟩
      have hf := hfilter.mp hc ind hind
      rw [hcont] at hf
      exact absurd hf (by decide)
    · rw [if_neg (by simpa [List.isEmpty_iff] using hc)]
      have hex : ∃ ind ∈ loading_indicators, lowerSub a.raw ind = true := by
        by_contra hno
        push_neg at hno
        simp only [Bool.not_eq_true] at hno
        exact hc (hfilter.mpr hno)
      refine ⟨⟨fun _ => hex, fun _ => rfl⟩, ⟨fun h => absurd h (by decide), fun hall => ?_⟩⟩
      obtain ⟨ind, hind, hcont⟩ := hex
      rw [hall ind hind] at hcont
      exact absurd hcont (by decide)
  · intro hge
    unfold DataCleaning.run
    rw [if_neg hge]

/-- Witness for `markup_extractor_spec`: one currency node plus a
`loading-spinner` marker classifies still-loading, one node without any
marker classifies structure-changed, and two currency nodes yield the two
digit-only prices. -/
theorem markup_extractor_spec_witness :
    DataCleaning.run ⟨["Rp 1.234.567"], "<span class=loading-spinner>"⟩ = .stillLoading ∧
    DataCleaning.run ⟨["Rp 1.234.567"], "<div></div>"⟩ = .structureChanged ∧
    DataCleaning.run ⟨["Rp 1.234.567", "Rp 2.000.000"], ""⟩ = .prices ["1234567", "2000000"] := by
  refine ⟨?_, ?_, ?_⟩
  · exact ((markup_extractor_spec ⟨["Rp 1.234.567"], "<span class=loading-spinner>"⟩).2.1
      (by decide)).1.mpr ⟨"loading-spinner", by decide, by decide⟩
  · exact ((markup_extractor_spec ⟨["Rp 1.234.567"], "<div></div>"⟩).2.1
      (by decide)).2.mpr (by decide)
  · have h := (markup_extractor_spec ⟨["Rp 1.234.567", "Rp 2.000.000"], ""⟩).2.2 (by decide)
    rw [h]
    decide

/-- C7: the Pegadaian store deletes the markup artifact exactly when storage
completes successfully — after a normal return the artifact is gone, and when
the insert raises, the artifact flag is untouched and the artifact remains on
disk. -/
theorem pegadaian_artifact_delete_iff_ok (price_list : Option (List String))
    (id ts : String) (fs : PegFs) :
    ((DataStoring.run price_list id ts fs).2 = Except.ok () →
      (DataStoring.run price_list id ts fs).1.artifactOnDisk = false) ∧
    (∀ e, (DataStoring.run price_list id ts fs).2 = Except.error e →
      (DataStoring.run price_list id ts fs).1.artifactOnDisk = fs.artifactOnDisk) := by
  unfold DataStoring.run
  cases h : DataStoring.insert_new_data price_list id ts fs.output with
  | mk out r =>
    cases r with
    | ok u => cases u; exact ⟨fun _ => rfl, fun e he => absurd he (by simp)⟩
    | error e => exact ⟨fun h => absurd h (by simp), fun _ _ => rfl⟩

/-- Witness for `pegadaian_artifact_delete_iff_ok`: a valid two-price list
stores and deletes the artifact; a null price list raises and leaves the
artifact in place. -/
theorem pegadaian_artifact_delete_iff_ok_witness :
    (DataStoring.run (some ["1", "2"]) "id" "ts" ⟨[], true⟩).1.artifactOnDisk = false ∧
    (DataStoring.run none "id" "ts" ⟨[], true⟩).1.artifactOnDisk = true := by
  constructor
  · exact (pegadaian_artifact_delete_iff_ok (some ["1", "2"]) "id" "ts" ⟨[], true⟩).1 rfl
  · have h := (pegadaian_artifact_delete_iff_ok none "id" "ts" ⟨[], true⟩).2
      "Invalid price list" rfl
    simpa using h

/-- C10: the Pegadaian store is not atomic on the insufficient-price-count
error: a null or short price list makes the run raise, yet — because the
header is written before the row is built — a previously empty output file
ends up holding exactly a fresh header row. -/
theorem pegadaian_store_not_atomic (price_list : Option (List String))
    (id ts : String) (fs : PegFs)
    (hbad : price_list = none ∨ ∃ l, price_list = some l ∧ l.length < 2)
    (hout : fs.output = []) :
    (∃ e, (DataStoring.run price_list id ts fs).2 = Except.error e) ∧
    (DataStoring.run price_list id ts fs).1.output = [pegadaianHeader] := by
  have hproc : DataStoring.process_new_data price_list id ts
      = Except.error "Invalid price list" := by
    rcases hbad with h | ⟨l, hl, hlen⟩
    · rw [h]; rfl
    · rw [hl]
      unfold DataStoring.process_new_data
      simp [hlen]
  unfold DataStoring.run DataStoring.insert_new_data
  rw [hout, hproc]
  exact ⟨⟨"Invalid price list", rfl⟩, rfl⟩

/-- Witness for `pegadaian_store_not_atomic`: a null price list against an
empty output file raises while leaving the header behind. -/
theorem pegadaian_store_not_atomic_witness :
    ((none : Option (List String)) = none ∨
      ∃ l, (none : Option (List String)) = some l ∧ l.length < 2) ∧
    (([] : List (List String)) = []) ∧
    ((∃ e, (DataStoring.run none "id" "ts" ⟨[], true⟩).2 = Except.error e) ∧
      (DataStoring.run none "id" "ts" ⟨[], true⟩).1.output = [pegadaianHeader]) :=
  ⟨Or.inl rfl, rfl,
   pegadaian_store_not_atomic none "id" "ts" ⟨[], true⟩ (Or.inl rfl) rfl⟩

end Pegadaian

/-- Splitting a comma-free field consumes it whole. -/
theorem splitCommaAux_no_comma :
    ∀ (f acc : List Char), ',' ∉ f → splitCommaAux f acc = [acc.reverse ++ f] := by
  intro f
  induction f with
  | nil => intro acc _; simp [splitCommaAux]
  | cons c t ih =>
    intro acc hnc
    have hc : c ≠ ',' := fun h => hnc (h ▸ List.mem_cons_self c t)
    unfold splitCommaAux
    rw [if_neg hc, ih (c :: acc) (fun h => hnc (List.mem_cons_of_mem c h))]
    simp

/-- Splitting after a comma-free field peels it off at the first comma. -/
theorem splitCommaAux_comma_split :
    ∀ (f rest acc : List Char), ',' ∉ f →
      splitCommaAux (f ++ ',' :: rest) acc = (acc.reverse ++ f) :: splitCommaAux rest [] := by
  intro f
  induction f with
  | nil =>
    intro rest acc _
    rw [List.nil_append]
    conv_lhs => rw [splitCommaAux]
    rw [if_pos rfl]
    simp
  | cons c t ih =>
    intro rest acc hnc
    have hc : c ≠ ',' := fun h => hnc (h ▸ List.mem_cons_self c t)
    rw [List.cons_append]
    conv_lhs => rw [splitCommaAux]
    rw [if_neg hc, ih rest (c :: acc) (fun h => hnc (List.mem_cons_of_mem c h))]
    simp

/-- Comma-separated joining of comma-free fields parses back to the fields. -/
theorem readRow_joinComma :
    ∀ fields : List (List Char), fields ≠ [] → (∀ f ∈ fields, ',' ∉ f) →
      readRow (joinComma fields) = fields := by
  intro fields
  induction fields with
  | nil => intro h _; exact absurd rfl h
  | cons f fs ih =>
    intro _ hall
    cases fs with
    | nil =>
      show readRow (joinComma [f]) = [f]
      unfold readRow joinComma
      simpa using splitCommaAux_no_comma f [] (hall f (List.mem_cons_self f []))
    | cons g gs =>
      have hj : joinComma (f :: g :: gs) = f ++ ',' :: joinComma (g :: gs) := rfl
      unfold readRow
      rw [hj, splitCommaAux_comma_split f _ [] (hall f (List.mem_cons_self f _))]
      simp only [List.reverse_nil, List.nil_append]
      congr 1
      exact ih (by simp) (fun x hx => hall x (List.mem_cons_of_mem f hx))

/-- A field that needs no quoting is written verbatim. -/
theorem csvEscapeField_id (f : List Char) (h : csvNeedsQuote f = false) :
    csvEscapeField f = f := by
  unfold csvEscapeField
  simp [h]

/-- A field that needs no quoting contains no comma. -/
theorem csvNeedsQuote_no_comma (f : List Char) (h : csvNeedsQuote f = false) :
    ',' ∉ f := by
  intro hm
  unfold csvNeedsQuote at h
  rw [List.any_eq_false] at h
  have := h ',' hm
  simp at this

/-- A digit-only field never needs quoting. -/
theorem digit_only_no_quote (f : List Char) (h : ∀ c ∈ f, c.isDigit = true) :
    csvNeedsQuote f = false := by
  unfold csvNeedsQuote
  rw [List.any_eq_false]
  intro c hc
  have hd := h c hc
  have h1 : c ≠ ',' := fun h1 => absurd hd (by subst h1; decide)
  have h2 : c ≠ '\"' := fun h1 => absurd hd (by subst h1; decide)
  have h3 : c ≠ '\n' := fun h1 => absurd hd (by subst h1; decide)
  have h4 : c ≠ '\r' := fun h1 => absurd hd (by subst h1; decide)
  simp [h1, h2, h3, h4]

/-- Writing quote-free fields is plain comma joining. -/
theorem writeRow_no_quote (fields : List (List Char))
    (h : ∀ f ∈ fields, csvNeedsQuote f = false) :
    writeRow fields = joinComma fields := by
  unfold writeRow
  congr 1
  calc fields.map csvEscapeField
      = fields.map id := List.map_congr_left (fun f hf => csvEscapeField_id f (h f hf))
    _ = fields := List.map_id fields

/-- Writing then reading a row of quote-free fields is the identity. -/
theorem readRow_writeRow (fields : List (List Char)) (hne : fields ≠ [])
    (hq : ∀ f ∈ fields, csvNeedsQuote f = false) :
    readRow (writeRow fields) = fields := by
  rw [writeRow_no_quote fields hq]
  exact readRow_joinComma fields hne (fun f hf => csvNeedsQuote_no_comma f (hq f hf))

/-- C8: the CSV write-then-read round trip is lossless for both paths' rows —
digit-only fields never need quoting, and any UBS `_build_row` row or
Pegadaian `process_new_data` row whose fields are free of CSV special
characters (as digit-only prices and ISO date/timestamp strings are) reads
back unchanged. -/
theorem csv_round_trip (entry : PriceRecord) (id ts : String)
    (hq1 : ∀ f ∈ (DataStoring.build_row entry id ts).map String.data,
      csvNeedsQuote f = false)
    (pl : List String) (pid pts : String) (row : List String)
    (hrow : Pegadaian.DataStoring.process_new_data (some pl) pid pts = Except.ok row)
    (hq2 : ∀ f ∈ row.map String.data, csvNeedsQuote f = false) :
    (∀ f : List Char, (∀ c ∈ f, c.isDigit = true) → csvNeedsQuote f = false) ∧
    readRow (writeRow ((DataStoring.build_row entry id ts).map String.data))
      = (DataStoring.build_row entry id ts).map String.data ∧
    readRow (writeRow (row.map String.data)) = row.map String.data := by
  refine ⟨digit_only_no_quote, ?_, ?_⟩
  · exact readRow_writeRow _ (by simp [DataStoring.build_row]) hq1
  · have hne : row ≠ [] := by
      have hrow2 : (if pl.length < 2 then
            (Except.error "Invalid price list" : Except String (List String))
          else Except.ok [pid, pl.getD 0 "", pl.getD 1 "", pts]) = Except.ok row := hrow
      by_cases hl : pl.length < 2
      · rw [if_pos hl] at hrow2
        exact Except.noConfusion hrow2
      · rw [if_neg hl] at hrow2
        injection hrow2 with h
        rw [← h]
        simp
    exact readRow_writeRow _
      (fun hmap => hne (List.map_eq_nil_iff.mp hmap)) hq2

/-- Witness for `csv_round_trip`: a concrete UBS row (`price 123456`, day 10)
and a concrete Pegadaian row built from prices `["111", "222"]`, both with
ISO-style timestamp fields, read back unchanged. -/
theorem csv_round_trip_witness :
    (∀ f ∈ (DataStoring.build_row ⟨123456, 10⟩ "a1" "2026-01-02 03:04:05+07:00").map
        String.data, csvNeedsQuote f = false) ∧
    (Pegadaian.DataStoring.process_new_data (some ["111", "222"]) "b2" "2026-01-02 03:04:06+07:00"
      = Except.ok ["b2", "111", "222", "2026-01-02 03:04:06+07:00"]) ∧
    ((∀ f : List Char, (∀ c ∈ f, c.isDigit = true) → csvNeedsQuote f = false) ∧
    readRow (writeRow ((DataStoring.build_row ⟨123456, 10⟩ "a1" "2026-01-02 03:04:05+07:00").map
        String.data))
      = (DataStoring.build_row ⟨123456, 10⟩ "a1" "2026-01-02 03:04:05+07:00").map String.data ∧
    readRow (writeRow ((["b2", "111", "222", "2026-01-02 03:04:06+07:00"] : List String).map
        String.data))
      = (["b2", "111", "222", "2026-01-02 03:04:06+07:00"] : List String).map String.data) :=
  ⟨by decide, rfl,
   csv_round_trip ⟨123456, 10⟩ "a1" "2026-01-02 03:04:05+07:00" (by decide)
     ["111", "222"] "b2" "2026-01-02 03:04:06+07:00"
     ["b2", "111", "222", "2026-01-02 03:04:06+07:00"] rfl (by decide)⟩

end HargaEmas
